import Mathlib

/-!
Verification of the jerbs task-queue engine against its specification.

The model below is a shallow embedding of `src/lib.rs` (schema version 2).
SQLite tables become lists of rows; `INTEGER PRIMARY KEY` auto-assignment
becomes `max existing id + 1` (SQLite's rowid rule for these inserts, since
rows are never deleted); blobs become `List Nat`; nullable columns become
`Option`; a statement that can hit a uniqueness or foreign-key constraint
returns `Except SqlError`.  Timestamps produced by `date('now')` are passed
in as an explicit `now` argument.
-/

namespace Jerbs

/-- Constant `DB_VERSION` from lib.rs: the newest schema version this engine knows. -/
def DB_VERSION : Nat := 2

/-- A row of the `task` table created by `Db::create_from_conn`:
`task (id INTEGER PRIMARY KEY, count INTEGER NOT NULL, data BLOB NOT NULL, priority INTEGER)`.
Note the column list: `data` carries no UNIQUE constraint in this schema. -/
structure Task where
  id : Nat
  count : Nat
  data : List Nat
  priority : Option Int
deriving Repr, DecidableEq

/-- A row of the `job` table:
`job (id INTEGER PRIMARY KEY, task REFERENCES task, time INTEGER, worker TEXT NOT NULL)`. -/
structure JobRow where
  id : Nat
  task : Nat
  time : Option Nat
  worker : String
deriving Repr, DecidableEq

/-- A row of `job_start (job PRIMARY KEY REFERENCES job, time INTEGER, cmd BLOB)`. -/
structure StartRow where
  job : Nat
  time : Nat
  cmd : List (List Nat)
deriving Repr, DecidableEq

/-- A row of `job_finish (job PRIMARY KEY REFERENCES job, result INTEGER, time INTEGER, data BLOB)`.
`Db::log_finish` never supplies the `data` column, so it is nullable here. -/
structure FinishRow where
  job : Nat
  result : Int
  time : Nat
  data : Option (List Nat)
deriving Repr, DecidableEq

/-- The storage state: the four data tables of a version-2 store. -/
structure Db where
  tasks : List Task
  jobs : List JobRow
  jobStarts : List StartRow
  jobFinishes : List FinishRow
deriving Repr, DecidableEq

/-- A SQL statement rejected by a constraint (primary-key or foreign-key violation). -/
inductive SqlError where
  | constraintViolation
deriving Repr, DecidableEq

/-- The `Job` struct returned by `Db::take`: the selected row's first column
(`task.id`) and second column (`task.data`). -/
structure Job where
  id : Nat
  data : List Nat
deriving Repr, DecidableEq

/-- Largest id in a list, 0 when empty. -/
def maxId (l : List Nat) : Nat := l.foldr max 0

/-- Rowid auto-assigned to the next `task` insert. -/
def nextTaskId (db : Db) : Nat := maxId (db.tasks.map (·.id)) + 1

/-- Rowid auto-assigned to the next `job` insert. -/
def nextJobId (db : Db) : Nat := maxId (db.jobs.map (·.id)) + 1

/-- Source `Db::create_from_conn` on empty storage: all four tables empty
(and `meta.version` set to `DB_VERSION`, carried separately in `Store`). -/
def Db.create : Db :=
  { tasks := [], jobs := [], jobStarts := [], jobFinishes := [] }

/-- Source `Db::new_job` (define_task): `INSERT INTO task (data, count, priority) VALUES (?, ?, ?)`,
returning `last_insert_rowid`.  In the version-2 schema created by
`create_from_conn` no constraint mentions `data`, so the insert always
succeeds, duplicate data included. -/
def new_job (db : Db) (data : List Nat) (count : Nat) (priority : Option Int) :
    Db × Nat :=
  let id := nextTaskId db
  ({ db with
      tasks := db.tasks ++ [{ id := id, count := count, data := data, priority := priority }] },
   id)

/-- Source `Db::worker_count`: `SELECT count(1) FROM job WHERE task = ?`. -/
def worker_count (db : Db) (tid : Nat) : Nat :=
  (db.jobs.filter (fun j => j.task == tid)).length

/-- The WHERE clause of `JOB_Q` in `Db::take`: `COALESCE(w.c, 0) < task.count`
where `w.c` is the number of job rows referencing the task. -/
def available (db : Db) (t : Task) : Bool :=
  worker_count db t.id < t.count

/-- The first ORDER BY key of `JOB_Q`: `COALESCE(task.priority, 0)`. -/
def prioKey (t : Task) : Int := t.priority.getD 0

/-- Strict comparison in the ORDER BY of `JOB_Q`:
`ORDER BY COALESCE(task.priority, 0), task.id`. -/
def keyLt (a b : Task) : Bool :=
  prioKey a < prioKey b || (prioKey a == prioKey b && a.id < b.id)

/-- Reflexive closure of `keyLt` on the same ORDER BY key. -/
def keyLe (a b : Task) : Bool :=
  prioKey a < prioKey b || (prioKey a == prioKey b && a.id ≤ b.id)

/-- The `ORDER BY ... LIMIT 1` step: the row minimal under `keyLt`, if any. -/
def selectFirst : List Task → Option Task
  | [] => none
  | t :: ts => some (ts.foldl (fun best c => if keyLt c best then c else best) t)

/-- Source `Db::take`: inside one transaction, run `JOB_Q` (filter the tasks that
still have a free slot, order by coalesced priority then id, take the first);
if no row, return `none`; otherwise `INSERT INTO job (task, worker)` —
leaving `job.time` NULL — and return a `Job` holding the task's id and data. -/
def take (db : Db) (worker : String) : Db × Option Job :=
  match selectFirst (db.tasks.filter (available db)) with
  | none => (db, none)
  | some t =>
      ({ db with
          jobs := db.jobs ++
            [{ id := nextJobId db, task := t.id, time := none, worker := worker }] },
       some { id := t.id, data := t.data })

/-- Source `Db::get_data`: `SELECT data FROM task WHERE id = ?` then `unwrap` on the
first row; `none` models the panic on a missing id. -/
def get_data (db : Db) (tid : Nat) : Option (List Nat) :=
  (db.tasks.find? (fun t => t.id == tid)).map (·.data)

/-- Source `Db::get_count`: `SELECT count FROM task WHERE id = ?` (unwrap, `none`
models the panic on a missing id), then `if w > c { 0 } else { c - w }`
with `w` the referencing-job count. -/
def get_count (db : Db) (tid : Nat) : Option Nat :=
  (db.tasks.find? (fun t => t.id == tid)).map (fun t =>
    let c := t.count
    let w := worker_count db tid
    if w > c then 0 else c - w)

/-- Source `Db::get_priority`: unwrap the task row (`none` models the panic on a
missing id), then `prio.unwrap_or(0)` on the nullable column. -/
def get_priority (db : Db) (tid : Nat) : Option Int :=
  (db.tasks.find? (fun t => t.id == tid)).map (fun t => t.priority.getD 0)

/-- Source `Db::current_job`: `SELECT id FROM job WHERE worker = ? ORDER BY id DESC LIMIT 1`,
i.e. the largest job id held by the worker, `none` when the worker has none. -/
def current_job (db : Db) (worker : String) : Option Nat :=
  match (db.jobs.filter (fun j => j.worker == worker)).map (·.id) with
  | [] => none
  | i :: is => some (is.foldl max i)

/-- Source `Db::get_job_worker`: `SELECT worker FROM job WHERE id = ?`; `none` models
the `expect` panic on a missing job id. -/
def get_job_worker (db : Db) (jid : Nat) : Option String :=
  (db.jobs.find? (fun j => j.id == jid)).map (·.worker)

/-- Source `Db::log_start`: `INSERT INTO job_start (job, time, cmd) VALUES (?, date('now'), ?)`.
The insert hits the `job PRIMARY KEY` constraint when a start row for this job
exists, and the `REFERENCES job` constraint when the job id does not exist. -/
def log_start (db : Db) (jid : Nat) (now : Nat) (cmd : List (List Nat)) :
    Except SqlError Db :=
  if db.jobStarts.any (fun s => s.job == jid) then .error .constraintViolation
  else if !(db.jobs.any (fun j => j.id == jid)) then .error .constraintViolation
  else .ok { db with jobStarts := db.jobStarts ++ [{ job := jid, time := now, cmd := cmd }] }

/-- Source `Db::log_finish`: `INSERT INTO job_finish (job, result, time) VALUES (?, ?, date('now'))`.
Constraints as in `log_start`; the `data` column is not supplied, hence NULL. -/
def log_finish (db : Db) (jid : Nat) (result : Int) (now : Nat) :
    Except SqlError Db :=
  if db.jobFinishes.any (fun f => f.job == jid) then .error .constraintViolation
  else if !(db.jobs.any (fun j => j.id == jid)) then .error .constraintViolation
  else .ok { db with
    jobFinishes := db.jobFinishes ++
      [{ job := jid, result := result, time := now, data := none }] }

/-- Insert a number into an ascending list, keeping it ascending. -/
def insortNat (i : Nat) : List Nat → List Nat
  | [] => [i]
  | x :: xs => if i ≤ x then i :: x :: xs else x :: insortNat i xs

/-- SQL `ORDER BY` ascending on a list of ids.  Equal naturals are identical,
so every ascending sort produces this same list. -/
def sortNat (l : List Nat) : List Nat := l.foldr insortNat []

/-- Source `Db::get_jobs`: `SELECT id FROM job ORDER BY id`. -/
def get_jobs (db : Db) : List Nat :=
  sortNat (db.jobs.map (·.id))

/-- The inner query of `Db::get_started_jobs`: job `jid` has a `job_start` row
and no `job_finish` row. -/
def started_unfinished (db : Db) (jid : Nat) : Bool :=
  db.jobStarts.any (fun s => s.job == jid) && !(db.jobFinishes.any (fun f => f.job == jid))

/-- Ids of the jobs held by one worker. -/
def workerJobIds (db : Db) (w : String) : List Nat :=
  (db.jobs.filter (fun j => j.worker == w)).map (·.id)

/-- One group of `SELECT MAX(id) FROM job GROUP BY worker`: the worker's
largest job id, absent when the worker holds no job. -/
def workerMaxId (db : Db) (w : String) : Option Nat :=
  match workerJobIds db w with
  | [] => none
  | i :: is => some (is.foldl max i)

/-- The outer query `q0` of `Db::get_started_jobs`:
`SELECT MAX(id) FROM job GROUP BY worker ORDER BY id` — each worker's latest
job id, in ascending id order. -/
def worker_latest_ids (db : Db) : List Nat :=
  sortNat (((db.jobs.map (·.worker)).dedup).filterMap (workerMaxId db))

/-- Source `Db::get_started_jobs`: iterate over each worker's latest job and keep
those that are started and not finished. -/
def get_started_jobs (db : Db) : List Nat :=
  (worker_latest_ids db).filter (started_unfinished db)

/-- Modelled from the spec: `list_started_unfinished()` as §4.3 words it —
"those with a StartEvent and no FinishEvent (pure anti-join, no other
filtering)", in ascending job-id order.  For comparison with
`get_started_jobs`, which the source implements differently. -/
def list_started_unfinished_spec (db : Db) : List Nat :=
  sortNat ((db.jobs.map (·.id)).filter (started_unfinished db))

/-! ### Operations and reachable states

The mutating public operations of `Db` (queries are pure and do not change
the store).  A failed insert leaves the store unchanged, as in SQLite. -/

/-- One mutating call of the public interface. -/
inductive Op where
  | newJob (data : List Nat) (count : Nat) (priority : Option Int)
  | takeOp (worker : String)
  | logStart (job : Nat) (now : Nat) (cmd : List (List Nat))
  | logFinish (job : Nat) (result : Int) (now : Nat)
deriving Repr, DecidableEq

/-- Apply one operation; a constraint failure leaves the store unchanged. -/
def applyOp (db : Db) (op : Op) : Db :=
  match op with
  | .newJob d c p => (new_job db d c p).1
  | .takeOp w => (take db w).1
  | .logStart j t cmd =>
      match log_start db j t cmd with
      | .ok db' => db'
      | .error _ => db
  | .logFinish j r t =>
      match log_finish db j r t with
      | .ok db' => db'
      | .error _ => db

/-- The store after a sequence of operations on a freshly created store. -/
def runOps (ops : List Op) : Db := ops.foldl applyOp Db.create

/-- A store state reachable from a freshly created store. -/
def Reachable (db : Db) : Prop := ∃ ops, runOps ops = db

/-! ### Schema versioning (`upgrade`, `open_from_conn`) -/

/-- The version-1 `job` table (the pre-migration name of `task`):
`job (id INTEGER PRIMARY KEY, count INTEGER NOT NULL, data BLOB NOT NULL UNIQUE)`. -/
structure V1Task where
  id : Nat
  count : Nat
  data : List Nat
deriving Repr, DecidableEq

/-- The version-1 `worker` table:
`worker (id INTEGER PRIMARY KEY, job REFERENCES job, data BLOB NOT NULL)`. -/
structure V1Worker where
  id : Nat
  job : Nat
  data : String
deriving Repr, DecidableEq

/-- The data tables of a store, by schema layout.  `newer` stands for a
layout written by a build newer than this engine, which it cannot interpret. -/
inductive Tables where
  | v1 (jobs : List V1Task) (workers : List V1Worker)
  | v2 (db : Db)
  | newer
deriving Repr, DecidableEq

/-- A store as seen by `open_from_conn`: the `meta.version` row plus tables. -/
structure Store where
  version : Nat
  tables : Tables
deriving Repr, DecidableEq

/-- The error enum of lib.rs. -/
inductive Error where
  | DbTooNew (db_version : Nat)
deriving Repr, DecidableEq

/-- Source `upgrade_v1`: rename `job` to `task` and add the NULL `priority` column;
rebuild `job` from the `worker` rows (`INSERT INTO job (id, task, worker)
SELECT id, job, data FROM worker`; the new table has no `time` column, so
`time` is absent); create empty `job_start` and `job_finish`; set
`meta.version` to `DB_VERSION`. -/
def upgrade_v1 (s : Store) : Store :=
  match s.tables with
  | .v1 v1tasks v1workers =>
      { version := DB_VERSION,
        tables := .v2
          { tasks := v1tasks.map (fun j =>
              { id := j.id, count := j.count, data := j.data, priority := none }),
            jobs := v1workers.map (fun w =>
              { id := w.id, task := w.job, time := none, worker := w.data }),
            jobStarts := [],
            jobFinishes := [] } }
  | _ => { s with version := DB_VERSION }

/-- Source `upgrade`: loop reading `meta.version`; `1` migrates and loops,
`DB_VERSION` breaks with success, anything else breaks with
`Error::DbTooNew` carrying the version found, committing nothing. -/
def upgrade (s : Store) : Except Error Store :=
  if _h : s.version = 1 then upgrade (upgrade_v1 s)
  else if s.version = DB_VERSION then .ok s
  else .error (.DbTooNew s.version)
termination_by (if s.version = 1 then 1 else 0)
decreasing_by
  unfold upgrade_v1
  rcases s with ⟨v, t⟩
  cases t <;> simp_all [DB_VERSION]

/-- Source `Db::open_from_conn`: prepare the connection (a pragma, no data effect)
and run `upgrade`. -/
def open_from_conn (s : Store) : Except Error Store := upgrade s

/-! ### Auxiliary definitions for the statements below -/

/-- Structural invariant of reachable stores: task ids are pairwise distinct,
every job references an existing task, no task is over-assigned, the
`job_start` and `job_finish` primary keys are pairwise distinct, and the
`job.time` column is NULL everywhere. -/
def Inv (db : Db) : Prop :=
  (db.tasks.map (·.id)).Nodup ∧
  (∀ j ∈ db.jobs, ∃ t ∈ db.tasks, j.task = t.id) ∧
  (∀ t ∈ db.tasks, worker_count db t.id ≤ t.count) ∧
  (db.jobStarts.map (·.job)).Nodup ∧
  (db.jobFinishes.map (·.job)).Nodup ∧
  (∀ j ∈ db.jobs, j.time = none)

/-- Iterated claims: `n` consecutive `take` calls by one worker. -/
def iterTake (db : Db) (w : String) : Nat → Db
  | 0 => db
  | n + 1 => (take (iterTake db w n) w).1

/-- A store holding task A (id 1, priority -10) and task B (id 2, priority
unset, i.e. default 0), each with one free slot, created in that order. -/
def dbAB : Db :=
  (new_job (new_job Db.create [65] 1 (some (-10))).1 [66] 1 none).1

/-- A worker claims two repetitions of one task and logs a start for the
first job only: job 1 is started and unfinished but is not the worker's
latest job. -/
def opsStartedNotLatest : List Op :=
  [.newJob [9] 2 none, .takeOp "w", .takeOp "w", .logStart 1 100 []]

/-- The store reached by `opsStartedNotLatest`. -/
def dbStartedNotLatest : Db := runOps opsStartedNotLatest

/-- Operation list used by several witnesses: define a task with two slots,
claim one repetition, and log its start. -/
def opsW : List Op := [.newJob [7] 2 none, .takeOp "w", .logStart 1 5 []]

/-- The store reached by `opsW`. -/
def dbW : Db := runOps opsW

/-- Define a task with two slots and claim one repetition, logging nothing:
job 1 exists and has no start and no finish event. -/
def opsNoStart : List Op := [.newJob [7] 2 none, .takeOp "w"]

/-- The store reached by `opsNoStart`. -/
def dbNoStart : Db := runOps opsNoStart

/-! ## Helper lemmas -/

theorem mem_insortNat {a i : Nat} {l : List Nat} :
    a ∈ insortNat i l ↔ a = i ∨ a ∈ l := by
  induction l with
  | nil => simp [insortNat]
  | cons x xs ih =>
    simp only [insortNat]
    split
    · simp
    · simp only [List.mem_cons, ih]
      tauto

theorem mem_sortNat {a : Nat} {l : List Nat} : a ∈ sortNat l ↔ a ∈ l := by
  induction l with
  | nil => simp [sortNat]
  | cons x xs ih =>
    show a ∈ insortNat x (sortNat xs) ↔ _
    rw [mem_insortNat, ih]
    simp

theorem sorted_insortNat {i : Nat} {l : List Nat} (h : l.Sorted (· ≤ ·)) :
    (insortNat i l).Sorted (· ≤ ·) := by
  induction l with
  | nil => simp [insortNat]
  | cons x xs ih =>
    rw [List.sorted_cons] at h
    simp only [insortNat]
    split
    · rename_i hle
      rw [List.sorted_cons]
      refine ⟨?_, List.sorted_cons.2 h⟩
      intro b hb
      rcases List.mem_cons.1 hb with rfl | hb
      · exact hle
      · exact le_trans hle (h.1 b hb)
    · rename_i hgt
      rw [List.sorted_cons]
      refine ⟨?_, ih h.2⟩
      intro b hb
      rcases mem_insortNat.1 hb with rfl | hb
      · omega
      · exact h.1 b hb

theorem sorted_sortNat (l : List Nat) : (sortNat l).Sorted (· ≤ ·) := by
  induction l with
  | nil => simp [sortNat]
  | cons x xs ih => exact sorted_insortNat ih

theorem foldl_max_mem (is : List Nat) (i : Nat) : is.foldl max i ∈ i :: is := by
  induction is generalizing i with
  | nil => simp
  | cons x xs ih =>
    rcases List.mem_cons.1 (ih (max i x)) with h | h
    · rw [List.foldl_cons, h]
      rcases max_choice i x with h' | h' <;> rw [h'] <;> simp
    · simp only [List.foldl_cons, List.mem_cons]
      right; right; exact h

theorem le_foldl_max (is : List Nat) (i : Nat) :
    i ≤ is.foldl max i ∧ ∀ x ∈ is, x ≤ is.foldl max i := by
  induction is generalizing i with
  | nil => simp
  | cons x xs ih =>
    obtain ⟨h1, h2⟩ := ih (max i x)
    refine ⟨le_trans (Nat.le_max_left i x) h1, ?_⟩
    intro y hy
    rcases List.mem_cons.1 hy with rfl | hy
    · exact le_trans (Nat.le_max_right i y) h1
    · exact h2 y hy

theorem le_maxId {x : Nat} {l : List Nat} (h : x ∈ l) : x ≤ maxId l := by
  induction l with
  | nil => cases h
  | cons a as ih =>
    rcases List.mem_cons.1 h with rfl | h
    · exact Nat.le_max_left x (maxId as)
    · exact le_trans (ih h) (Nat.le_max_right a (maxId as))

theorem keyLe_refl (a : Task) : keyLe a a = true := by simp [keyLe]

theorem keyLt_keyLe {a b : Task} (h : keyLt a b = true) : keyLe a b = true := by
  simp only [keyLt, keyLe, Bool.or_eq_true, Bool.and_eq_true, beq_iff_eq,
    decide_eq_true_eq] at h ⊢
  omega

theorem keyLt_false {a b : Task} (h : keyLt a b = false) : keyLe b a = true := by
  simp only [keyLt, keyLe, Bool.or_eq_false_iff, Bool.and_eq_false_iff,
    Bool.or_eq_true, Bool.and_eq_true, beq_iff_eq, beq_eq_false_iff_ne,
    decide_eq_true_eq, decide_eq_false_iff_not] at h ⊢
  omega

theorem keyLe_trans {a b c : Task} (h1 : keyLe a b = true) (h2 : keyLe b c = true) :
    keyLe a c = true := by
  simp only [keyLe, Bool.or_eq_true, Bool.and_eq_true, beq_iff_eq,
    decide_eq_true_eq] at h1 h2 ⊢
  omega

theorem selectFirst_eq_none {ts : List Task} : selectFirst ts = none ↔ ts = [] := by
  cases ts <;> simp [selectFirst]

theorem foldBest_spec (ts : List Task) (acc : Task) :
    ts.foldl (fun best c => if keyLt c best then c else best) acc ∈ acc :: ts ∧
    keyLe (ts.foldl (fun best c => if keyLt c best then c else best) acc) acc = true ∧
    ∀ u ∈ ts, keyLe (ts.foldl (fun best c => if keyLt c best then c else best) acc) u = true := by
  induction ts generalizing acc with
  | nil => simpa using keyLe_refl acc
  | cons x xs ih =>
    by_cases h : keyLt x acc = true
    · simp only [List.foldl_cons, if_pos h]
      obtain ⟨hmem, hle, hall⟩ := ih x
      refine ⟨List.mem_cons_of_mem acc hmem, keyLe_trans hle (keyLt_keyLe h), ?_⟩
      intro u hu
      rcases List.mem_cons.1 hu with rfl | hu
      · exact hle
      · exact hall u hu
    · have hf : keyLt x acc = false := by revert h; cases keyLt x acc <;> simp
      simp only [List.foldl_cons, if_neg h]
      obtain ⟨hmem, hle, hall⟩ := ih acc
      refine ⟨?_, hle, ?_⟩
      · rcases List.mem_cons.1 hmem with he | h'
        · rw [he]; exact List.mem_cons_self _ _
        · exact List.mem_cons_of_mem _ (List.mem_cons_of_mem _ h')
      · intro u hu
        rcases List.mem_cons.1 hu with rfl | hu
        · exact keyLe_trans hle (keyLt_false hf)
        · exact hall u hu

theorem selectFirst_spec {ts : List Task} {t : Task} (h : selectFirst ts = some t) :
    t ∈ ts ∧ ∀ u ∈ ts, keyLe t u = true := by
  cases ts with
  | nil => cases h
  | cons x xs =>
    simp only [selectFirst, Option.some.injEq] at h
    obtain ⟨hmem, hle, hall⟩ := foldBest_spec xs x
    rw [h] at hmem hle hall
    refine ⟨hmem, ?_⟩
    intro u hu
    rcases List.mem_cons.1 hu with rfl | hu
    · exact hle
    · exact hall u hu

theorem worker_count_snoc (db : Db) (r : JobRow) (tid : Nat) :
    worker_count { db with jobs := db.jobs ++ [r] } tid =
      worker_count db tid + (if r.task == tid then 1 else 0) := by
  simp only [worker_count, List.filter_append]
  split <;> rename_i h <;> simp [List.filter, h]

theorem eq_of_mem_nodup_id {l : List Task} (h : (l.map (·.id)).Nodup) {a b : Task}
    (ha : a ∈ l) (hb : b ∈ l) (he : a.id = b.id) : a = b :=
  List.inj_on_of_nodup_map h ha hb he

theorem inv_create : Inv Db.create := by
  refine ⟨?_, ?_, ?_, ?_, ?_, ?_⟩ <;> simp [Db.create]

theorem any_task_ne_next {db : Db}
    (href : ∀ j ∈ db.jobs, ∃ t ∈ db.tasks, j.task = t.id) :
    ∀ j ∈ db.jobs, (j.task == nextTaskId db) = false := by
  intro j hj
  obtain ⟨t, ht, he⟩ := href j hj
  have hle : t.id ≤ maxId (db.tasks.map (·.id)) := le_maxId (List.mem_map_of_mem _ ht)
  simp only [beq_eq_false_iff_ne, ne_eq, he, nextTaskId]
  omega

theorem inv_applyOp {db : Db} (h : Inv db) (op : Op) : Inv (applyOp db op) := by
  obtain ⟨hnd, href, hcnt, hs, hf, ht⟩ := h
  cases op with
  | newJob d c p =>
    show Inv (new_job db d c p).1
    refine ⟨?_, ?_, ?_, hs, hf, ht⟩
    · simp only [new_job, List.map_append, List.map_cons, List.map_nil]
      rw [List.nodup_append]
      refine ⟨hnd, List.nodup_singleton _, ?_⟩
      intro a ha ha'
      simp only [List.mem_singleton] at ha'
      subst ha'
      have := le_maxId ha
      simp only [nextTaskId] at this
      omega
    · intro j hj
      obtain ⟨t, htm, he⟩ := href j hj
      exact ⟨t, List.mem_append.2 (Or.inl htm), he⟩
    · intro t htm
      rcases List.mem_append.1 htm with htm' | htm'
      · exact hcnt t htm'
      · simp only [List.mem_singleton] at htm'
        subst htm'
        show worker_count db (nextTaskId db) ≤ c
        have hnil : db.jobs.filter (fun j => j.task == nextTaskId db) = [] :=
          List.filter_eq_nil_iff.2 fun j hj => by
            rw [any_task_ne_next href j hj]; simp
        simp [worker_count, hnil]
  | takeOp w =>
    show Inv (take db w).1
    cases hsel : selectFirst (db.tasks.filter (available db)) with
    | none =>
      simp only [take, hsel]
      exact ⟨hnd, href, hcnt, hs, hf, ht⟩
    | some t =>
      have hmem := (selectFirst_spec hsel).1
      rw [List.mem_filter] at hmem
      obtain ⟨htm, hav⟩ := hmem
      simp only [take, hsel]
      refine ⟨hnd, ?_, ?_, hs, hf, ?_⟩
      · intro j hj
        rcases List.mem_append.1 hj with hj' | hj'
        · exact href j hj'
        · simp only [List.mem_singleton] at hj'
          subst hj'
          exact ⟨t, htm, rfl⟩
      · intro u hu
        rw [worker_count_snoc]
        by_cases hid : t.id = u.id
        · have hut : t = u := eq_of_mem_nodup_id hnd htm hu hid
          subst hut
          have hlt : worker_count db t.id < t.count := by
            simpa [available] using hav
          simp only [beq_self_eq_true, if_pos]
          omega
        · have hbe : (t.id == u.id) = false := by
            simp [hid]
          rw [hbe]
          simpa using hcnt u hu
      · intro j hj
        rcases List.mem_append.1 hj with hj' | hj'
        · exact ht j hj'
        · simp only [List.mem_singleton] at hj'
          subst hj'
          rfl
  | logStart j now cmd =>
    simp only [applyOp]
    by_cases hA : db.jobStarts.any (fun s => s.job == j) = true
    · simp only [log_start, hA, if_pos]
      exact ⟨hnd, href, hcnt, hs, hf, ht⟩
    · have hA' : db.jobStarts.any (fun s => s.job == j) = false := by
        revert hA; cases db.jobStarts.any (fun s => s.job == j) <;> simp
      by_cases hB : db.jobs.any (fun jr => jr.id == j) = true
      · simp only [log_start, hA', hB, Bool.false_eq_true, if_false,
          Bool.not_true, Bool.false_eq_true, if_false]
        refine ⟨hnd, href, hcnt, ?_, hf, ht⟩
        simp only [List.map_append, List.map_cons, List.map_nil]
        rw [List.nodup_append]
        refine ⟨hs, List.nodup_singleton _, ?_⟩
        intro a ha ha'
        simp only [List.mem_singleton] at ha'
        subst ha'
        rw [List.any_eq_false] at hA'
        obtain ⟨s, hsm, hsj⟩ := List.mem_map.1 ha
        exact hA' s hsm (by simp [hsj])
      · have hB' : db.jobs.any (fun jr => jr.id == j) = false := by
          revert hB; cases db.jobs.any (fun jr => jr.id == j) <;> simp
        simp only [log_start, hA', hB', Bool.false_eq_true, if_false,
          Bool.not_false, if_true]
        exact ⟨hnd, href, hcnt, hs, hf, ht⟩
  | logFinish j r now =>
    simp only [applyOp]
    by_cases hA : db.jobFinishes.any (fun f => f.job == j) = true
    · simp only [log_finish, hA, if_pos]
      exact ⟨hnd, href, hcnt, hs, hf, ht⟩
    · have hA' : db.jobFinishes.any (fun f => f.job == j) = false := by
        revert hA; cases db.jobFinishes.any (fun f => f.job == j) <;> simp
      by_cases hB : db.jobs.any (fun jr => jr.id == j) = true
      · simp only [log_finish, hA', hB, Bool.false_eq_true, if_false,
          Bool.not_true, Bool.false_eq_true, if_false]
        refine ⟨hnd, href, hcnt, hs, ?_, ht⟩
        simp only [List.map_append, List.map_cons, List.map_nil]
        rw [List.nodup_append]
        refine ⟨hf, List.nodup_singleton _, ?_⟩
        intro a ha ha'
        simp only [List.mem_singleton] at ha'
        subst ha'
        rw [List.any_eq_false] at hA'
        obtain ⟨f', hfm, hfj⟩ := List.mem_map.1 ha
        exact hA' f' hfm (by simp [hfj])
      · have hB' : db.jobs.any (fun jr => jr.id == j) = false := by
          revert hB; cases db.jobs.any (fun jr => jr.id == j) <;> simp
        simp only [log_finish, hA', hB', Bool.false_eq_true, if_false,
          Bool.not_false, if_true]
        exact ⟨hnd, href, hcnt, hs, hf, ht⟩

theorem inv_foldl {db : Db} (h : Inv db) (ops : List Op) :
    Inv (ops.foldl applyOp db) := by
  induction ops generalizing db with
  | nil => exact h
  | cons op rest ih => exact ih (inv_applyOp h op)

theorem inv_reachable {db : Db} (h : Reachable db) : Inv db := by
  obtain ⟨ops, rfl⟩ := h
  exact inv_foldl inv_create ops

theorem mem_workerJobIds {db : Db} {w : String} {i : Nat} :
    i ∈ workerJobIds db w ↔ ∃ j ∈ db.jobs, j.worker = w ∧ j.id = i := by
  simp only [workerJobIds, List.mem_map, List.mem_filter, beq_iff_eq]
  constructor
  · rintro ⟨j, ⟨hj, hw⟩, hid⟩
    exact ⟨j, hj, hw, hid⟩
  · rintro ⟨j, hj, hw, hid⟩
    exact ⟨j, ⟨hj, hw⟩, hid⟩

theorem workerMaxId_eq_some {db : Db} {w : String} {i : Nat} :
    workerMaxId db w = some i ↔
      (∃ j ∈ db.jobs, j.worker = w ∧ j.id = i) ∧
      ∀ j' ∈ db.jobs, j'.worker = w → j'.id ≤ i := by
  unfold workerMaxId
  cases hl : workerJobIds db w with
  | nil =>
    simp only [Option.some.injEq]
    constructor
    · intro h; cases h
    · rintro ⟨⟨j, hj, hw, _⟩, -⟩
      have hm : j.id ∈ workerJobIds db w := mem_workerJobIds.2 ⟨j, hj, hw, rfl⟩
      rw [hl] at hm
      cases hm
  | cons x xs =>
    constructor
    · intro h
      rw [Option.some.injEq] at h
      have hmem : i ∈ x :: xs := h ▸ foldl_max_mem xs x
      rw [← hl] at hmem
      obtain ⟨j, hj, hw, hid⟩ := mem_workerJobIds.1 hmem
      refine ⟨⟨j, hj, hw, hid⟩, ?_⟩
      intro j' hj' hw'
      have hm : j'.id ∈ workerJobIds db w := mem_workerJobIds.2 ⟨j', hj', hw', rfl⟩
      rw [hl] at hm
      rcases List.mem_cons.1 hm with he | hm'
      · rw [he, ← h]; exact (le_foldl_max xs x).1
      · rw [← h]; exact (le_foldl_max xs x).2 _ hm'
    · rintro ⟨⟨j, hj, hw, hid⟩, hbound⟩
      have h1 : xs.foldl max x ∈ x :: xs := foldl_max_mem xs x
      rw [← hl] at h1
      obtain ⟨j', hj', hw', hid'⟩ := mem_workerJobIds.1 h1
      have hle1 : xs.foldl max x ≤ i := hid' ▸ hbound j' hj' hw'
      have h2 : i ∈ workerJobIds db w := mem_workerJobIds.2 ⟨j, hj, hw, hid⟩
      rw [hl] at h2
      have hle2 : i ≤ xs.foldl max x := by
        rcases List.mem_cons.1 h2 with he | hm'
        · rw [he]; exact (le_foldl_max xs x).1
        · exact (le_foldl_max xs x).2 _ hm'
      rw [Option.some.injEq]
      omega

theorem workerMaxId_eq_none {db : Db} {w : String} :
    workerMaxId db w = none ↔ ∀ j ∈ db.jobs, j.worker ≠ w := by
  unfold workerMaxId
  cases hl : workerJobIds db w with
  | nil =>
    simp only [true_iff]
    intro j hj hw
    have hm : j.id ∈ workerJobIds db w := mem_workerJobIds.2 ⟨j, hj, hw, rfl⟩
    rw [hl] at hm
    cases hm
  | cons x xs =>
    have hm : x ∈ workerJobIds db w := by
      rw [hl]; exact List.mem_cons_self _ _
    obtain ⟨j, hj, hw, -⟩ := mem_workerJobIds.1 hm
    constructor
    · intro h; cases h
    · intro hall
      exact absurd hw (hall j hj)

theorem current_job_eq (db : Db) (w : String) :
    current_job db w = workerMaxId db w := rfl

/-- C5: open on a store whose `meta.version` is greater than the newest
version this engine knows (`DB_VERSION`) fails with `DbTooNew` carrying the
version found; the error is returned before anything is committed, so the
store is not modified.  Open on the current version succeeds and returns
the store unchanged. -/
theorem C5_open_version_check (s : Store) :
    (DB_VERSION < s.version → open_from_conn s = .error (.DbTooNew s.version)) ∧
    (s.version = DB_VERSION → open_from_conn s = .ok s) := by
  constructor
  · intro h
    have h1 : ¬ s.version = 1 := by simp only [DB_VERSION] at h; omega
    have h2 : ¬ s.version = DB_VERSION := by omega
    rw [open_from_conn, upgrade, dif_neg h1, if_neg h2]
  · intro h
    have h1 : ¬ s.version = 1 := by rw [h]; simp [DB_VERSION]
    rw [open_from_conn, upgrade, dif_neg h1, if_pos h]

/-- Witness for C5 at a store with version 3 (too new) and one with the
current version 2. -/
theorem C5_witness :
    (DB_VERSION < 3 ∧ open_from_conn ⟨3, .newer⟩ = .error (.DbTooNew 3)) ∧
    open_from_conn ⟨DB_VERSION, .v2 Db.create⟩ = .ok ⟨DB_VERSION, .v2 Db.create⟩ :=
  ⟨⟨by decide, (C5_open_version_check ⟨3, .newer⟩).1 (by decide)⟩,
   (C5_open_version_check ⟨DB_VERSION, .v2 Db.create⟩).2 rfl⟩

/-- C10: `get_data`, `get_priority` and `get_job_worker` are defined only
under the precondition that the queried id exists: on a missing id the
source unwraps an empty query result and panics, modelled here by `none`;
on an existing id they return a value. -/
theorem C10_queries_panic_on_missing_id (db : Db) (i : Nat) :
    (get_data db i = none ↔ ∀ t ∈ db.tasks, t.id ≠ i) ∧
    (get_priority db i = none ↔ ∀ t ∈ db.tasks, t.id ≠ i) ∧
    (get_job_worker db i = none ↔ ∀ j ∈ db.jobs, j.id ≠ i) ∧
    ((∃ t ∈ db.tasks, t.id = i) →
      (get_data db i).isSome = true ∧ (get_priority db i).isSome = true) ∧
    ((∃ j ∈ db.jobs, j.id = i) → (get_job_worker db i).isSome = true) := by
  refine ⟨?_, ?_, ?_, ?_, ?_⟩
  · simp [get_data, List.find?_eq_none]
  · simp [get_priority, List.find?_eq_none]
  · simp [get_job_worker, List.find?_eq_none]
  · rintro ⟨t, htm, hid⟩
    constructor <;>
      simp only [get_data, get_priority, Option.isSome_map', List.find?_isSome] <;>
      exact ⟨t, htm, by simp [hid]⟩
  · rintro ⟨j, hjm, hid⟩
    simp only [get_job_worker, Option.isSome_map', List.find?_isSome]
    exact ⟨j, hjm, by simp [hid]⟩

/-- Witness for C10 on a concrete store: ids that exist are answered, a
missing id yields the panic case. -/
theorem C10_witness :
    ((∃ t ∈ dbW.tasks, t.id = 1) ∧
      (get_data dbW 1).isSome = true ∧ (get_priority dbW 1).isSome = true) ∧
    get_job_worker dbW 99 = none :=
  ⟨⟨by decide, (C10_queries_panic_on_missing_id dbW 1).2.2.2.1 (by decide)⟩,
   (C10_queries_panic_on_missing_id dbW 99).2.2.1.mpr (by decide)⟩

/-- C8: `current_job worker` is the highest-id job row of that worker —
`none` exactly when the worker has never claimed a job, and by construction
independent of the start and finish event tables. -/
theorem C8_current_job_is_max_id (db : Db) (w : String) :
    (current_job db w = none ↔ ∀ j ∈ db.jobs, j.worker ≠ w) ∧
    (∀ i, current_job db w = some i →
      ∃ j ∈ db.jobs, j.worker = w ∧ j.id = i ∧
        ∀ j' ∈ db.jobs, j'.worker = w → j'.id ≤ i) ∧
    (∀ ss fs, current_job { db with jobStarts := ss, jobFinishes := fs } w =
      current_job db w) := by
  refine ⟨?_, ?_, fun ss fs => rfl⟩
  · rw [current_job_eq, workerMaxId_eq_none]
  · intro i hsome
    rw [current_job_eq] at hsome
    obtain ⟨⟨j, hj, hw, hid⟩, hbound⟩ := workerMaxId_eq_some.1 hsome
    exact ⟨j, hj, hw, hid, hbound⟩

/-- Witness for C8: in `dbW` worker "w" holds exactly job 1, worker "x"
holds nothing. -/
theorem C8_witness :
    (∃ j ∈ dbW.jobs, j.worker = "w" ∧ j.id = 1 ∧
      ∀ j' ∈ dbW.jobs, j'.worker = "w" → j'.id ≤ 1) ∧
    current_job dbW "x" = none :=
  ⟨(C8_current_job_is_max_id dbW "w").2.1 1 (by decide),
   (C8_current_job_is_max_id dbW "x").1.mpr (by decide)⟩

/-- C2 (code bug): on a freshly created version-2 store, `new_job` with data
byte-for-byte equal to an existing task's data succeeds — the schema written
by `create_from_conn` has no UNIQUE constraint on `task.data` (the version-1
schema had one, and the v1-to-v2 migration keeps it for migrated stores, so
fresh stores alone accept duplicates).  Here the second insert of the same
payload returns fresh id 2 and leaves two tasks with identical data. -/
theorem C2_duplicate_data_accepted :
    (new_job (new_job Db.create [74] 3 none).1 [74] 0 none).2 = 2 ∧
    ((new_job (new_job Db.create [74] 3 none).1 [74] 0 none).1.tasks.map (·.data)) =
      [[74], [74]] := by
  exact ⟨rfl, rfl⟩

/-- C9 counterexample: a successful claim inserts its job row without the
`time` column (`INSERT INTO job (task, worker) VALUES (?, ?)`), so the
created row carries no creation timestamp. -/
theorem C9_counterexample_no_timestamp :
    (take (new_job Db.create [7] 2 none).1 "w").2.isSome = true ∧
    ((take (new_job Db.create [7] 2 none).1 "w").1.jobs.all
      (fun j => j.time.isSome)) = false := by
  exact ⟨rfl, rfl⟩

/-- C9 (amended): every job row is created exactly once by a successful
claim — a mutating operation either leaves the job table unchanged or is a
`take` that returned a job and appended exactly one new row — rows are never
mutated or deleted, and the `time` column is never populated: it is NULL in
every reachable store. -/
theorem C9_job_rows_append_only (db : Db) (op : Op) :
    ((applyOp db op).jobs = db.jobs ∨
      ∃ w t, op = .takeOp w ∧ (take db w).2 = some t ∧
        (applyOp db op).jobs =
          db.jobs ++ [{ id := nextJobId db, task := t.id, time := none, worker := w }]) ∧
    (Reachable db → ∀ j ∈ db.jobs, j.time = none) := by
  constructor
  · cases op with
    | newJob d c p => left; rfl
    | takeOp w =>
      cases hsel : selectFirst (db.tasks.filter (available db)) with
      | none => left; simp [applyOp, take, hsel]
      | some t =>
        right
        refine ⟨w, { id := t.id, data := t.data }, rfl, ?_, ?_⟩
        · simp [take, hsel]
        · simp [applyOp, take, hsel]
    | logStart j now cmd =>
      left
      simp only [applyOp]
      cases hls : log_start db j now cmd with
      | ok db' =>
        simp only [log_start] at hls
        split at hls
        · cases hls
        · split at hls
          · cases hls
          · injection hls with h
            rw [← h]
      | error e => rfl
    | logFinish j r now =>
      left
      simp only [applyOp]
      cases hls : log_finish db j r now with
      | ok db' =>
        simp only [log_finish] at hls
        split at hls
        · cases hls
        · split at hls
          · cases hls
          · injection hls with h
            rw [← h]
      | error e => rfl
  · intro hr
    exact (inv_reachable hr).2.2.2.2.2

/-- Witness for C9 (amended) at the reachable store `dbW`. -/
theorem C9_witness :
    Reachable dbW ∧ ∀ j ∈ dbW.jobs, j.time = none :=
  ⟨⟨opsW, rfl⟩, (C9_job_rows_append_only dbW (Op.takeOp "z")).2 ⟨opsW, rfl⟩⟩

/-- C1: claim (`take`) considers exactly the tasks whose referencing-job
count is strictly below `desired_count`; among those it picks the one
minimal under (coalesced priority, id); it appends one job row for that
task with the given worker and returns the task's id and data; with no
candidate it returns `none`, not an error.  On `dbAB` — task A (id 1,
priority -10) and task B (id 2, priority unset) both available — the first
claim returns a job for A. -/
theorem C1_take_selects_first_candidate (db : Db) (w : String) :
    (db.tasks.filter (available db) = [] → take db w = (db, none)) ∧
    (∀ t0 ∈ db.tasks.filter (available db),
      ∃ t', (t' ∈ db.tasks ∧ available db t' = true) ∧
        (∀ u ∈ db.tasks, available db u = true → keyLe t' u = true) ∧
        take db w =
          ({ db with jobs := db.jobs ++
              [{ id := nextJobId db, task := t'.id, time := none, worker := w }] },
           some { id := t'.id, data := t'.data })) ∧
    (take dbAB w).2 = some { id := 1, data := [65] } := by
  refine ⟨?_, ?_, rfl⟩
  · intro h
    simp [take, h, selectFirst]
  · intro t0 ht0
    cases hsel : selectFirst (db.tasks.filter (available db)) with
    | none =>
      rw [selectFirst_eq_none] at hsel
      rw [hsel] at ht0
      cases ht0
    | some t' =>
      obtain ⟨hmem, hmin⟩ := selectFirst_spec hsel
      rw [List.mem_filter] at hmem
      refine ⟨t', ⟨hmem.1, hmem.2⟩, ?_, ?_⟩
      · intro u hu hav
        exact hmin u (List.mem_filter.2 ⟨hu, hav⟩)
      · simp [take, hsel]

/-- Witness for C1: the empty store yields no work, and on `dbAB` the first
claim picks task A (priority -10) over task B (default 0). -/
theorem C1_witness :
    (Db.create.tasks.filter (available Db.create) = [] ∧
      take Db.create "x" = (Db.create, none)) ∧
    (take dbAB "v").2 = some { id := 1, data := [65] } :=
  ⟨⟨by decide, (C1_take_selects_first_candidate Db.create "x").1 (by decide)⟩,
   (C1_take_selects_first_candidate dbAB "v").2.2⟩

theorem iterTake_single (d : List Nat) (p : Option Int) (c : Nat) (w : String) :
    ∀ n, n ≤ c →
      (iterTake (new_job Db.create d c p).1 w n).tasks =
        [{ id := 1, count := c, data := d, priority := p }] ∧
      worker_count (iterTake (new_job Db.create d c p).1 w n) 1 = n := by
  intro n
  induction n with
  | zero => exact fun _ => ⟨rfl, rfl⟩
  | succ n ih =>
    intro hle
    obtain ⟨htasks, hwc⟩ := ih (Nat.le_of_succ_le hle)
    have hav : available (iterTake (new_job Db.create d c p).1 w n)
        { id := 1, count := c, data := d, priority := p } = true := by
      simp only [available, hwc]
      simp only [decide_eq_true_eq]
      omega
    have hsel : selectFirst ((iterTake (new_job Db.create d c p).1 w n).tasks.filter
        (available (iterTake (new_job Db.create d c p).1 w n))) =
        some { id := 1, count := c, data := d, priority := p } := by
      rw [htasks, List.filter_cons, if_pos hav]
      rfl
    have htake : take (iterTake (new_job Db.create d c p).1 w n) w =
        ({ iterTake (new_job Db.create d c p).1 w n with
            jobs := (iterTake (new_job Db.create d c p).1 w n).jobs ++
              [{ id := nextJobId (iterTake (new_job Db.create d c p).1 w n),
                 task := 1, time := none, worker := w }] },
         some { id := 1, data := d }) := by
      simp only [take]
      rw [hsel]
    constructor
    · show (take (iterTake (new_job Db.create d c p).1 w n) w).1.tasks = _
      rw [htake]
      exact htasks
    · show worker_count (take (iterTake (new_job Db.create d c p).1 w n) w).1 1 = n + 1
      rw [htake, worker_count_snoc]
      simp [hwc]

/-- C6: `remaining` (`get_count`) on an existing task returns
max(0, desired_count - assigned), written with `Int.toNat`; and starting
from one freshly defined task, after `n` successful claims (all of which do
succeed while `n ≤ desired_count`) it returns max(0, desired_count - n). -/
theorem C6_remaining_is_clamped_difference (db : Db) (tid : Nat) :
    (∀ t, db.tasks.find? (fun x => x.id == tid) = some t →
      get_count db tid = some (((t.count : Int) - (worker_count db tid : Int)).toNat)) ∧
    (∀ (d : List Nat) (p : Option Int) (c n : Nat) (w : String), n ≤ c →
      (∀ k, k < n →
        (take (iterTake (new_job Db.create d c p).1 w k) w).2.isSome = true) ∧
      get_count (iterTake (new_job Db.create d c p).1 w n) 1 =
        some (((c : Int) - (n : Int)).toNat)) := by
  constructor
  · intro t hfind
    simp only [get_count, hfind, Option.map_some']
    congr 1
    split <;> omega
  · intro d p c n w hn
    constructor
    · intro k hk
      obtain ⟨htasks, hwc⟩ := iterTake_single d p c w k (by omega)
      have hav : available (iterTake (new_job Db.create d c p).1 w k)
          { id := 1, count := c, data := d, priority := p } = true := by
        simp only [available, hwc]
        simp only [decide_eq_true_eq]
        omega
      have hsel : selectFirst ((iterTake (new_job Db.create d c p).1 w k).tasks.filter
          (available (iterTake (new_job Db.create d c p).1 w k))) =
          some { id := 1, count := c, data := d, priority := p } := by
        rw [htasks, List.filter_cons, if_pos hav]
        rfl
      simp [take, hsel]
    · obtain ⟨htasks, hwc⟩ := iterTake_single d p c w n hn
      simp only [get_count, htasks, hwc, List.find?]
      simp only [beq_self_eq_true, Option.map_some']
      congr 1
      split <;> omega

/-- Witness for C6: in `dbW` task 1 has two slots and one claim, so one
repetition remains; after two claims of a two-slot task nothing remains. -/
theorem C6_witness :
    get_count dbW 1 = some 1 ∧
    get_count (iterTake (new_job Db.create [3] 2 none).1 "u" 2) 1 = some 0 := by
  constructor
  · have h := (C6_remaining_is_clamped_difference dbW 1).1
      { id := 1, count := 2, data := [7], priority := none } (by decide)
    rw [h]
    decide
  · have h := ((C6_remaining_is_clamped_difference Db.create 0).2
      [3] none 2 2 "u" (by decide)).2
    rw [h]
    decide

/-- C7: for each job at most one StartEvent and one FinishEvent can exist:
a second `log_start` hits the `job_start` primary key and fails, a second
`log_finish` hits the `job_finish` primary key and fails, and `log_finish`
on an existing job with no FinishEvent succeeds even when that job has no
StartEvent; in every reachable store the start and finish tables have
pairwise distinct job keys. -/
theorem C7_event_log_uniqueness (db : Db) (j now : Nat) (cmd : List (List Nat)) (r : Int) :
    ((∃ s ∈ db.jobStarts, s.job = j) →
      log_start db j now cmd = .error .constraintViolation) ∧
    ((∃ f ∈ db.jobFinishes, f.job = j) →
      log_finish db j r now = .error .constraintViolation) ∧
    ((∃ jr ∈ db.jobs, jr.id = j) → (∀ s ∈ db.jobStarts, s.job ≠ j) →
      (∀ f ∈ db.jobFinishes, f.job ≠ j) →
      log_finish db j r now = .ok { db with jobFinishes := db.jobFinishes ++
        [{ job := j, result := r, time := now, data := none }] }) ∧
    (Reachable db →
      (db.jobStarts.map (·.job)).Nodup ∧ (db.jobFinishes.map (·.job)).Nodup) := by
  refine ⟨?_, ?_, ?_, ?_⟩
  · rintro ⟨s, hs, hj⟩
    have hA : db.jobStarts.any (fun s' => s'.job == j) = true :=
      List.any_eq_true.2 ⟨s, hs, by simp [hj]⟩
    simp [log_start, hA]
  · rintro ⟨f, hf, hj⟩
    have hA : db.jobFinishes.any (fun f' => f'.job == j) = true :=
      List.any_eq_true.2 ⟨f, hf, by simp [hj]⟩
    simp [log_finish, hA]
  · rintro ⟨jr, hjr, hid⟩ _hns hnf
    have hA : db.jobFinishes.any (fun f' => f'.job == j) = false :=
      List.any_eq_false.2 fun f hf => by simp [hnf f hf]
    have hB : db.jobs.any (fun x => x.id == j) = true :=
      List.any_eq_true.2 ⟨jr, hjr, by simp [hid]⟩
    simp [log_finish, hA, hB]
  · intro hr
    have hi := inv_reachable hr
    exact ⟨hi.2.2.2.1, hi.2.2.2.2.1⟩

/-- Witness for C7: in `dbW` job 1 already has a StartEvent, so a second
`log_start` fails; in `dbNoStart` job 1 has no StartEvent and no
FinishEvent, and `log_finish` succeeds there. -/
theorem C7_witness :
    log_start dbW 1 6 [] = .error .constraintViolation ∧
    log_finish dbNoStart 1 0 6 = .ok { dbNoStart with
      jobFinishes := dbNoStart.jobFinishes ++
        [{ job := 1, result := 0, time := 6, data := none }] } ∧
    (dbW.jobStarts.map (·.job)).Nodup :=
  ⟨(C7_event_log_uniqueness dbW 1 6 [] 0).1 (by decide),
   (C7_event_log_uniqueness dbNoStart 1 6 [] 0).2.2.1
     (by decide) (by decide) (by decide),
   ((C7_event_log_uniqueness dbW 1 6 [] 0).2.2.2 ⟨opsW, rfl⟩).1⟩

/-- C4: in every store reachable from a fresh one through the public
operations, no task is referenced by more job rows than its
`desired_count`; in particular the `c >= w` assertion in `get_count` holds
for the task row that query reads. -/
theorem C4_assigned_never_exceeds_count (db : Db) (h : Reachable db) :
    (∀ t ∈ db.tasks, worker_count db t.id ≤ t.count) ∧
    (∀ tid t, db.tasks.find? (fun x => x.id == tid) = some t →
      worker_count db tid ≤ t.count) := by
  have hi := inv_reachable h
  refine ⟨hi.2.2.1, ?_⟩
  intro tid t hfind
  have hmem := List.mem_of_find?_eq_some hfind
  have hp := List.find?_some hfind
  simp only [beq_iff_eq] at hp
  rw [← hp]
  exact hi.2.2.1 t hmem

/-- Witness for C4 at the reachable store `dbW`. -/
theorem C4_witness :
    Reachable dbW ∧ ∀ t ∈ dbW.tasks, worker_count dbW t.id ≤ t.count :=
  ⟨⟨opsW, rfl⟩, (C4_assigned_never_exceeds_count dbW ⟨opsW, rfl⟩).1⟩

theorem mem_worker_latest_ids {db : Db} {i : Nat} :
    i ∈ worker_latest_ids db ↔
      ∃ jr ∈ db.jobs, jr.id = i ∧
        ∀ j' ∈ db.jobs, j'.worker = jr.worker → j'.id ≤ jr.id := by
  unfold worker_latest_ids
  rw [mem_sortNat, List.mem_filterMap]
  constructor
  · rintro ⟨w, hw, hmax⟩
    obtain ⟨⟨j, hj, hjw, hid⟩, hbound⟩ := workerMaxId_eq_some.1 hmax
    refine ⟨j, hj, hid, ?_⟩
    intro j' hj' hw'
    have h := hbound j' hj' (by rw [hw']; exact hjw)
    rw [hid]
    exact h
  · rintro ⟨jr, hjr, hid, hbound⟩
    refine ⟨jr.worker, ?_, ?_⟩
    · rw [List.mem_dedup]
      exact List.mem_map_of_mem _ hjr
    · refine workerMaxId_eq_some.2 ⟨⟨jr, hjr, rfl, hid⟩, ?_⟩
      intro j' hj' hw'
      rw [← hid]
      exact hbound j' hj' hw'

/-- C3 counterexample: in `dbStartedNotLatest` job 1 has a StartEvent and no
FinishEvent, yet `get_started_jobs` returns the empty list because job 1 is
not its worker's latest job — unlike the pure anti-join the spec describes,
which returns it. -/
theorem C3_counterexample_not_pure_antijoin :
    get_started_jobs dbStartedNotLatest = [] ∧
    list_started_unfinished_spec dbStartedNotLatest = [1] ∧
    started_unfinished dbStartedNotLatest 1 = true := by
  exact ⟨rfl, rfl, rfl⟩

/-- C3 (amended): `get_started_jobs` returns, in ascending job-id order,
exactly the ids of the jobs that are their worker's highest-id job and have
a StartEvent and no FinishEvent. -/
theorem C3_started_jobs_characterization (db : Db) :
    (get_started_jobs db).Sorted (· ≤ ·) ∧
    ∀ i, i ∈ get_started_jobs db ↔
      ((∃ jr ∈ db.jobs, jr.id = i ∧
          ∀ j' ∈ db.jobs, j'.worker = jr.worker → j'.id ≤ jr.id) ∧
        started_unfinished db i = true) := by
  constructor
  · exact (sorted_sortNat _).filter _
  · intro i
    unfold get_started_jobs
    rw [List.mem_filter, mem_worker_latest_ids]

/-- Witness for C3 (amended): job 1 of `dbStartedNotLatest` is excluded
though started and unfinished, because it is not its worker's latest job. -/
theorem C3_witness :
    1 ∉ get_started_jobs dbStartedNotLatest ∧
    started_unfinished dbStartedNotLatest 1 = true :=
  ⟨fun hm =>
    absurd (((C3_started_jobs_characterization dbStartedNotLatest).2 1).1 hm)
      (by decide),
   by decide⟩

end Jerbs
